import Mathlib

/-!
Verification of the BJL binary codec in
`src/scripts/SithasoLayoutEngine.js` (classes `BinaryReader`,
`BinaryWriter`, `CompressedStreams`, `BJLConverter`).

Modelling conventions, stated once here:

* A byte buffer (JS `Uint8Array`) is a `List Nat`.  Elements of a real
  `Uint8Array` are always in `[0, 256)`; the reader primitives reduce
  mod 256 so the model is total on arbitrary lists.
* A JS string is a `List Nat` of Unicode code points.  `TextEncoder` /
  `TextDecoder` are the platform's UTF-8 codec; they are modelled
  concretely by `utf8` / `utf8Dec` below (exact on valid sequences and
  on a truncated lead byte, which are the only cases the theorems
  exercise).  The JS `length` property counts UTF-16 code units and is
  modelled by `utf16Len`.
* JS numbers appearing as float32 payloads are modelled by their 32-bit
  little-endian bit pattern (a `Nat` below `2^32`), since the codec only
  moves them through `DataView.getFloat32`/`setFloat32`.
* `pako.gzip`, always called with `{ level: 1, mtime: 0, header: { os: 0 } }`
  (lines 99 and 266), is an opaque external function; it is threaded as an
  explicit parameter `pakoGzip : Nat → Nat → Nat → List Nat → List Nat`
  receiving `(level, mtime, os)`.  `pako.ungzip` is likewise a parameter
  `ungzip : List Nat → Option (List Nat)`, `none` meaning it throws.
-/

namespace BJL

/-! ## Little-endian integer primitives (class `BinaryReader` / `BinaryWriter`) -/

/-- Interpretation of a 32-bit pattern as a signed int32 (`DataView.getInt32`). -/
def wrap32 (u : Nat) : Int :=
  if u % 2 ^ 32 < 2 ^ 31 then ((u % 2 ^ 32 : Nat) : Int) else ((u % 2 ^ 32 : Nat) : Int) - 2 ^ 32

/-- The unsigned 32-bit pattern of an integer, as produced by `v | 0` followed by
`DataView.setInt32` (`BinaryWriter.writeInt`, line 68). -/
def toUInt32 (v : Int) : Nat := (v % (2 ^ 32 : Int)).toNat

/-- Little-endian 4-byte split of a 32-bit pattern. -/
def le4 (u : Nat) : List Nat := [u % 256, u / 256 % 256, u / 2 ^ 16 % 256, u / 2 ^ 24 % 256]

/-- Bytes emitted by `BinaryWriter.writeInt v` (little-endian int32 of `v | 0`). -/
def int32Bytes (v : Int) : List Nat := le4 (toUInt32 v)

/-- Recombination of four little-endian bytes into a 32-bit pattern. -/
def fromLE4 (b0 b1 b2 b3 : Nat) : Nat := b0 + 256 * b1 + 2 ^ 16 * b2 + 2 ^ 24 * b3

/-- The unsigned 16-bit pattern of an integer (`DataView.setInt16` wraps). -/
def toUInt16 (v : Int) : Nat := (v % (2 ^ 16 : Int)).toNat

/-- Little-endian bytes of one element written by `BJLConverter._shortsToBytes`
(line 346). -/
def int16Bytes (v : Int) : List Nat := [toUInt16 v % 256, toUInt16 v / 256]

/-- Interpretation of a 16-bit pattern as a signed int16 (`DataView.getInt16`,
used by the Rect32 decode at line 188). -/
def wrap16 (u : Nat) : Int :=
  if u % 2 ^ 16 < 2 ^ 15 then ((u % 2 ^ 16 : Nat) : Int) else ((u % 2 ^ 16 : Nat) : Int) - 2 ^ 16

/-- Interpretation of a byte as a signed byte (`DataView.getInt8`,
`BinaryReader.readSignedByte`). -/
def signedOfByte (b : Nat) : Int :=
  if b % 256 < 128 then ((b % 256 : Nat) : Int) else ((b % 256 : Nat) : Int) - 256

/-! ## UTF-8 (model of `TextEncoder` / `TextDecoder`) -/

/-- UTF-8 bytes of one Unicode code point (`TextEncoder`). -/
def utf8Char (c : Nat) : List Nat :=
  if c < 0x80 then [c]
  else if c < 0x800 then [0xC0 + c / 64, 0x80 + c % 64]
  else if c < 0x10000 then [0xE0 + c / 4096, 0x80 + c / 64 % 64, 0x80 + c % 64]
  else [0xF0 + c / 262144, 0x80 + c / 4096 % 64, 0x80 + c / 64 % 64, 0x80 + c % 64]

/-- UTF-8 bytes of a string (`TextEncoder().encode`). -/
def utf8 (s : List Nat) : List Nat := (s.map utf8Char).flatten

/-- The JS `String.prototype.length` of a string: its number of UTF-16 code
units (code points at or above `0x10000` take a surrogate pair). -/
def utf16Len (s : List Nat) : Nat := (s.map (fun c => if c < 0x10000 then 1 else 2)).sum

/-- Fuelled UTF-8 decoder (`TextDecoder().decode`): exact on valid sequences;
an invalid or truncated sequence yields the replacement character `0xFFFD`
and resynchronises at the next byte.  One unit of fuel is spent per decoded
character, so fuel equal to the byte count always suffices. -/
def utf8DecF : Nat → List Nat → List Nat
  | 0, _ => []
  | _ + 1, [] => []
  | fuel + 1, b :: t =>
    if b < 0x80 then b :: utf8DecF fuel t
    else if b < 0xC2 then 0xFFFD :: utf8DecF fuel t
    else if b < 0xE0 then
      match t with
      | b1 :: t1 =>
        if b1 / 64 = 2 then ((b - 0xC0) * 64 + (b1 - 0x80)) :: utf8DecF fuel t1
        else 0xFFFD :: utf8DecF fuel t
      | [] => [0xFFFD]
    else if b < 0xF0 then
      match t with
      | b1 :: b2 :: t2 =>
        if b1 / 64 = 2 ∧ b2 / 64 = 2 then
          ((b - 0xE0) * 4096 + (b1 - 0x80) * 64 + (b2 - 0x80)) :: utf8DecF fuel t2
        else 0xFFFD :: utf8DecF fuel t
      | _ => [0xFFFD]
    else if b < 0xF5 then
      match t with
      | b1 :: b2 :: b3 :: t3 =>
        if b1 / 64 = 2 ∧ b2 / 64 = 2 ∧ b3 / 64 = 2 then
          ((b - 0xF0) * 262144 + (b1 - 0x80) * 4096 + (b2 - 0x80) * 64 + (b3 - 0x80)) ::
            utf8DecF fuel t3
        else 0xFFFD :: utf8DecF fuel t
      | _ => [0xFFFD]
    else 0xFFFD :: utf8DecF fuel t

/-- UTF-8 decoding of a byte list (`TextDecoder().decode`). -/
def utf8Dec (l : List Nat) : List Nat := utf8DecF l.length l

/-- A valid Unicode scalar value: in range and not a surrogate.  Lone
surrogates in a JS string are not encoded faithfully by `TextEncoder`, so
well-formed documents exclude them. -/
def ValidCp (c : Nat) : Prop := c < 0x110000 ∧ ¬(0xD800 ≤ c ∧ c < 0xE000)

/-- A well-formed string: valid code points. -/
def ValidStr (s : List Nat) : Prop := ∀ c ∈ s, ValidCp c

/-! ## Decoder state monad

The decoder (`BinaryReader` plus the `_read*` methods) is modelled as a
state monad over the remaining byte list.  A thrown JS exception other
than the version check is a `DErr.underrun` (`DataView` throws a
`RangeError` on out-of-bounds reads); the explicit
`throw new Error("Unsupported BJL version")` at line 132 is
`DErr.unsupportedVersion`. -/

inductive DErr where
  | underrun
  | unsupportedVersion
  deriving DecidableEq, Repr

instance {ε α : Type} [DecidableEq ε] [DecidableEq α] : DecidableEq (Except ε α) := fun a b =>
  match a, b with
  | .ok x, .ok y =>
    if h : x = y then .isTrue (by rw [h]) else .isFalse (fun hc => by cases hc; exact h rfl)
  | .error x, .error y =>
    if h : x = y then .isTrue (by rw [h]) else .isFalse (fun hc => by cases hc; exact h rfl)
  | .ok _, .error _ => .isFalse (fun hc => by cases hc)
  | .error _, .ok _ => .isFalse (fun hc => by cases hc)

/-- Decoder computations: state = remaining bytes of the buffer. -/
abbrev Dec (α : Type) := StateT (List Nat) (Except DErr) α

/-- Model of `BinaryReader.readByte` (line 33). -/
def readByte : Dec Nat := fun s =>
  match s with
  | [] => .error .underrun
  | b :: t => .ok (b % 256, t)

/-- Model of `BinaryReader.readSignedByte` (line 34). -/
def readSignedByte : Dec Int := fun s =>
  match s with
  | [] => .error .underrun
  | b :: t => .ok (signedOfByte b, t)

/-- Model of `BinaryReader.readInt` (lines 35-39): little-endian signed int32.
`DataView.getInt32` throws before consuming when fewer than 4 bytes remain. -/
def readInt : Dec Int := fun s =>
  match s with
  | b0 :: b1 :: b2 :: b3 :: t => .ok (wrap32 (fromLE4 (b0 % 256) (b1 % 256) (b2 % 256) (b3 % 256)), t)
  | _ => .error .underrun

/-- Model of `BinaryReader.readFloat` (lines 40-44), at the granularity of the
32-bit pattern. -/
def readFloatBits : Dec Nat := fun s =>
  match s with
  | b0 :: b1 :: b2 :: b3 :: t => .ok (fromLE4 (b0 % 256) (b1 % 256) (b2 % 256) (b3 % 256), t)
  | _ => .error .underrun

/-- Model of `BinaryReader.readBytes` (lines 45-49): `Uint8Array.slice` clamps
at the end of the buffer and never throws; the offset advances by `len`.
The source would rewind the offset on a negative `len`; the model reads
nothing instead — no theorem below exercises a negative length here. -/
def readBytesJS (len : Int) : Dec (List Nat) := fun s =>
  .ok ((s.take len.toNat).map (· % 256), s.drop len.toNat)

/-! ## The in-memory document (the JSON design produced/consumed by the codec)

`BJLConverter._readMap` produces a JS object whose values are: int32
numbers, strings, booleans, nested objects, and marker objects
`{ ValueType: tag, Value: payload }` for Float, String (inline), Color,
Rect32 and Null.  `BJLConverter._writeMap` (lines 430-458) additionally
meets, in arbitrary caller-built documents, bare non-integer numbers,
`undefined` and bare `null`; they are all representable below.  A color
value's external form `"0x" + uppercase hex` is carried as its 4 raw
bytes (spec §3: stored as 4 raw bytes, surfaced as hex of those bytes).
A map (JS object) is an insertion-ordered key/value list with unique
keys; `JEntries` is that list, spelled as its own inductive so that all
recursions over documents are structural. -/

mutual

inductive JVal where
  | vint (n : Int)
  | vnum
  | vundef
  | vstr (s : List Nat)
  | vbool (b : Bool)
  | vnull
  | vfloat (bits : Nat)
  | vinline (s : List Nat)
  | vcolor (b0 b1 b2 b3 : Nat)
  | vrect (r0 r1 r2 r3 : Int)
  | vnullM
  | vmap (m : JEntries)
  deriving DecidableEq, Repr

inductive JEntries where
  | nil
  | cons (key : List Nat) (val : JVal) (rest : JEntries)
  deriving DecidableEq, Repr

end

/-- Keys of a map, in order. -/
def JEntries.keys : JEntries → List (List Nat)
  | .nil => []
  | .cons k _ rest => k :: rest.keys

/-- JS `map[key] = value` on the ordered-entry model: an existing key keeps
its position and is overwritten, a new key is appended. -/
def JEntries.set (m : JEntries) (k : List Nat) (v : JVal) : JEntries :=
  match m with
  | .nil => .cons k v .nil
  | .cons k0 v0 rest => if k0 = k then .cons k0 v rest else .cons k0 v0 (rest.set k v)

/-- One rendering variant `{ Scale, Width, Height }` (scale by its float32
bit pattern). -/
structure Variant where
  scale : Nat
  width : Int
  height : Int
  deriving DecidableEq, Repr

/-- One control-header triple. -/
structure ControlHeader where
  name : List Nat
  javaType : List Nat
  designerType : List Nat
  deriving DecidableEq, Repr

/-- The layout header object built by `_readLayoutHeader` (line 200). -/
structure LayoutHeader where
  version : Int
  gridSize : Int
  controlsHeaders : List ControlHeader
  files : List (List Nat)
  designerScript : List (List Nat)
  deriving DecidableEq, Repr

/-- The whole design object (`convertBjlToJsonFromBytes`, lines 134-135). -/
structure Design where
  layoutHeader : LayoutHeader
  variants : List Variant
  data : JEntries
  fontAwesome : Bool
  materialIcons : Bool
  deriving DecidableEq, Repr

/-! ## Encoder (`BinaryWriter` plus the `_write*` methods)

The `BinaryWriter` is a growable buffer written left to right; its output
is modelled as the byte list appended by each operation.  The only
encode-side exception is the `CacheMiss` throw of `_writeCachedString`
(line 330), so encoding functions return `Except EErr (List Nat)`. -/

inductive EErr where
  | cacheMiss (s : List Nat)
  deriving DecidableEq, Repr

/-- Model of `BJLConverter._writeString` (lines 310-314): int32 byte length of
the UTF-8 encoding, then its bytes. -/
def writeString (s : List Nat) : List Nat :=
  int32Bytes ((utf8 s).length : Int) ++ utf8 s

/-- Position of `s` in an insertion-ordered cache.  A JS string cache is an
object `string → index` with `cache[s] = Object.keys(cache).length` assigned
at insertion, so the index of a member is exactly its insertion position. -/
def idxOf (s : List Nat) : List (List Nat) → Nat
  | [] => 0
  | t :: r => if t = s then 0 else idxOf s r + 1

/-- Insertion into an insertion-ordered deduplicated string table
(`if (!(s in cache)) { cache[s] = Object.keys(cache).length; order.push(s) }`). -/
def insertIfAbsent (acc : List (List Nat)) (s : List Nat) : List (List Nat) :=
  if s ∈ acc then acc else acc ++ [s]

/-- Model of `BJLConverter._writeCachedString` (lines 323-333): with an empty
cache the string is written inline; otherwise its index is written, and a
string absent from a non-empty cache throws (`CacheMiss`). -/
def writeCachedString (cache : List (List Nat)) (s : List Nat) : Except EErr (List Nat) :=
  if cache.isEmpty then .ok (writeString s)
  else if s ∈ cache then .ok (int32Bytes (idxOf s cache : Int))
  else .error (.cacheMiss s)

mutual

/-- Dispatch of `BJLConverter._collectStringsInOrder` (lines 410-428) on one
map value: recurse into a plain nested object (`ValueType` undefined), insert
the `Value` of an explicit inline-string marker (`ValueType === CSTRING`,
lines 420-421), insert a bare string value (lines 423-424); nothing else is
collected.  The source's `Array.isArray` branch is unreachable from this
document model, which has no array values (the decoder never produces one). -/
def collectStringsVal (v : JVal) (acc : List (List Nat)) : List (List Nat) :=
  match v with
  | .vmap m => collectStringsInOrder m acc
  | .vinline s => insertIfAbsent acc s
  | .vstr s => insertIfAbsent acc s
  | _ => acc

/-- Model of `BJLConverter._collectStringsInOrder` (lines 410-428) over the
entries of a map: each key is inserted, then the value is dispatched, in
entry order.  `acc` is the `cache`/`order` pair of the source, which stay in
lockstep (index = insertion position). -/
def collectStringsInOrder (m : JEntries) (acc : List (List Nat)) : List (List Nat) :=
  match m with
  | .nil => acc
  | .cons k v rest => collectStringsInOrder rest (collectStringsVal v (insertIfAbsent acc k))

end

/-- Model of `BJLConverter._writeStringsCacheInOrder` (lines 316-319): count,
then each cached string, in first-seen order. -/
def writeStringsCacheInOrder (order : List (List Nat)) : List Nat :=
  int32Bytes (order.length : Int) ++ (order.map writeString).flatten

/-- Whether the JS number decoded from a float32 bit pattern is falsy
(`x || d` replaces `x` by `d`): that is, it is a zero (either sign) or a NaN
(exponent bits all ones with a nonzero mantissa). -/
def f32Falsy (bits : Nat) : Prop :=
  bits % 2 ^ 32 % 2 ^ 31 = 0 ∨ 0x7F800000 < bits % 2 ^ 32 % 2 ^ 31

instance (bits : Nat) : Decidable (f32Falsy bits) := by unfold f32Falsy; infer_instance

/-- The bit pattern written by `writeFloat(v.Scale || 1)`: a falsy scale is
replaced by 1.0 (pattern `0x3F800000`). -/
def f32OrOne (bits : Nat) : Nat :=
  if f32Falsy bits then 0x3F800000 else bits % 2 ^ 32

/-- Model of `BJLConverter._writeVariant` (lines 287-291).  `v.Width || 0`
and `v.Height || 0` are the identity on integers (0 maps to 0), so only the
scale default is visible. -/
def writeVariant (v : Variant) : List Nat :=
  le4 (f32OrOne v.scale) ++ int32Bytes v.width ++ int32Bytes v.height

/-- Base-128 varint bytes of a length, least-significant 7-bit group first,
high bit as continuation flag (`_writeBinaryString`, lines 272-279).  Fuelled
so the definition is structural; `len + 1` units always suffice. -/
def varintBytesF : Nat → Nat → List Nat
  | 0, _ => []
  | fuel + 1, len => if len < 128 then [len] else (len % 128 + 128) :: varintBytesF fuel (len / 128)

/-- Model of `BJLConverter._writeBinaryString` (lines 269-281).  The varint
prefix encodes `text.length` — the UTF-16 code-unit count — while the bytes
that follow are the UTF-8 encoding; the two lengths differ on non-ASCII
strings. -/
def writeBinaryString (s : List Nat) : List Nat :=
  varintBytesF (utf16Len s + 1) (utf16Len s) ++ utf8 s

/-- The per-variant part of the script sub-stream (`_writeScripts` loop,
lines 259-264): variant triple, then the next script (`scriptsCopy[scriptIdx++]
|| ""`, i.e. the head of the remaining scripts or the empty string). -/
def writeScriptsLoop : List Variant → List (List Nat) → List Nat
  | [], _ => []
  | v :: vs, ss =>
    writeVariant v ++ writeBinaryString (ss.headD []) ++ writeScriptsLoop vs ss.tail

/-- The uncompressed script sub-stream of `BJLConverter._writeScripts`
(lines 253-265): global script, variant count, then per-variant data. -/
def writeScriptsSub (scripts : List (List Nat)) (variants : List Variant) : List Nat :=
  writeBinaryString (scripts.headD []) ++ int32Bytes (variants.length : Int) ++
    writeScriptsLoop variants scripts.tail

/-- Model of `BJLConverter._writeScripts` (lines 253-267): the sub-stream,
gzip-compressed with the fixed options `level 1, mtime 0, os 0` (line 266). -/
def writeScripts (pakoGzip : Nat → Nat → Nat → List Nat → List Nat)
    (scripts : List (List Nat)) (variants : List Variant) : List Nat :=
  pakoGzip 1 0 0 (writeScriptsSub scripts variants)

mutual

/-- Model of the value-writing part of `BJLConverter._writeMap`
(lines 434-456), after the key has been written: a marker object writes its
`ValueType` byte then its payload; a bare integer writes tag 1 + int32; a
bare string writes tag 9 + cached reference; a bare boolean writes tag 5 +
byte; bare `null` writes tag 12; a bare non-integer number or `undefined`
falls through every branch and writes nothing at all. -/
def writeMapValue (cache : List (List Nat)) (v : JVal) : Except EErr (List Nat) :=
  match v with
  | .vinline s => .ok (2 :: writeString s)
  | .vfloat bits => .ok (7 :: le4 (bits % 2 ^ 32))
  | .vcolor b0 b1 b2 b3 => .ok [6, b0 % 256, b1 % 256, b2 % 256, b3 % 256]
  | .vrect r0 r1 r2 r3 =>
    .ok (11 :: (int16Bytes r0 ++ int16Bytes r1 ++ int16Bytes r2 ++ int16Bytes r3))
  | .vnullM => .ok [12]
  | .vmap m => do
    let eb ← writeMapEntries cache m
    .ok (3 :: (eb ++ writeString [] ++ [4]))
  | .vint n => .ok (1 :: int32Bytes n)
  | .vstr s => do
    let sb ← writeCachedString cache s
    .ok (9 :: sb)
  | .vbool b => .ok [5, if b then 1 else 0]
  | .vnull => .ok [12]
  | .vnum => .ok []
  | .vundef => .ok []

/-- Model of `BJLConverter._writeMap` (lines 430-458): for each entry, the
key via the cache, then the value bytes.  The trailing empty-string key and
`EndOfMap` byte of a nested map are emitted by the `vmap` case of
`writeMapValue`, and for the root map by `_writeAllLayout`, exactly as in
the source. -/
def writeMapEntries (cache : List (List Nat)) (m : JEntries) : Except EErr (List Nat) :=
  match m with
  | .nil => .ok []
  | .cons k v rest => do
    let kb ← writeCachedString cache k
    let vb ← writeMapValue cache v
    let rb ← writeMapEntries cache rest
    .ok (kb ++ vb ++ rb)

end

/-- Model of `BJLConverter._writeAllLayout` (lines 396-408): collect the body
string table; a temporary buffer gets variant count, variant triples, the
root map, a trailing inline empty-string key and the EndOfMap byte; the main
buffer gets the string table, the temporary buffer, and a reserved zero
int32 footer. -/
def writeAllLayout (variants : List Variant) (data : JEntries) : Except EErr (List Nat) := do
  let order := collectStringsInOrder data []
  let eb ← writeMapEntries order data
  let temp := int32Bytes (variants.length : Int) ++ (variants.map writeVariant).flatten ++
    eb ++ writeString [] ++ [4]
  .ok (writeStringsCacheInOrder order ++ temp ++ int32Bytes 0)

/-- Insertion of the three cached fields of each control header into the
header-scoped cache (`_writeLayoutHeader`, lines 360-366), in key-creation
order: the index stored for each string (`cache[s] = Object.keys(cache).length`)
is the number of keys already present, i.e. its insertion position. -/
def buildHeaderCache (chs : List ControlHeader) : List (List Nat) :=
  chs.foldl (fun c ch =>
    insertIfAbsent (insertIfAbsent (insertIfAbsent c ch.name) ch.javaType) ch.designerType) []

/-- The numeric value of a decimal digit string. -/
def digitsVal (s : List Nat) : Nat := s.foldl (fun a c => 10 * a + (c - 0x30)) 0

/-- Whether a JS string is an ECMAScript array-index property key: a
canonical decimal numeral — nonempty, digits only, no leading zero unless it
is exactly "0" — whose value is at most `2^32 - 2`. -/
def isArrayIndexKey (s : List Nat) : Bool :=
  !s.isEmpty && s.all (fun c => decide (0x30 ≤ c) && decide (c ≤ 0x39)) &&
    (s.headD 0 != 0x30 || s.length == 1) && decide (digitsVal s ≤ 2 ^ 32 - 2)

/-- Insertion into a list sorted ascending by `digitsVal`. -/
def insertByVal (s : List Nat) : List (List Nat) → List (List Nat)
  | [] => [s]
  | t :: r => if digitsVal s ≤ digitsVal t then s :: t :: r else t :: insertByVal s r

/-- Insertion sort ascending by `digitsVal` (distinct canonical numerals
have distinct values, so on deduplicated keys every sort agrees). -/
def sortByVal : List (List Nat) → List (List Nat)
  | [] => []
  | s :: r => insertByVal s (sortByVal r)

/-- Model of JavaScript `Object.keys` on a string-keyed object whose keys
were created in the order of `order`: array-index keys first, in ascending
numeric order, then the remaining string keys in creation order
(OrdinaryOwnPropertyKeys). -/
def jsKeys (order : List (List Nat)) : List (List Nat) :=
  sortByVal (order.filter (fun s => isArrayIndexKey s)) ++
    order.filter (fun s => !isArrayIndexKey s)

/-- The control-header triples written through the header cache into the
temporary buffer (`_writeLayoutHeader`, lines 370-374). -/
def writeControlsLoop (cache : List (List Nat)) : List ControlHeader → Except EErr (List Nat)
  | [] => .ok []
  | ch :: rest => do
    let nb ← writeCachedString cache ch.name
    let jb ← writeCachedString cache ch.javaType
    let db ← writeCachedString cache ch.designerType
    let rb ← writeControlsLoop cache rest
    .ok (nb ++ jb ++ db ++ rb)

/-- Model of `BJLConverter._writeLayoutHeader` (lines 353-394): version
(`header?.Version || 4`), a backpatched int32 holding the byte length of
everything after it, grid size if version ≥ 4 (`header?.GridSize || 10`),
the header string cache — serialized via `Object.keys(cache)` (line 376),
i.e. in `jsKeys` enumeration order, while the indices recorded inside the
triples are the insertion positions stored at key creation — control-header
count and triples, files, and the gzip-compressed script block preceded by
its byte length.  The model forms the backpatched field directly as the
length of the bytes that follow it. -/
def writeLayoutHeader (pakoGzip : Nat → Nat → Nat → List Nat → List Nat)
    (header : LayoutHeader) (variants : List Variant) : Except EErr (List Nat) := do
  let version : Int := if header.version = 0 then 4 else header.version
  let cache := buildHeaderCache header.controlsHeaders
  let triples ← writeControlsLoop cache header.controlsHeaders
  let temp := int32Bytes (header.controlsHeaders.length : Int) ++ triples
  let scriptBytes := writeScripts pakoGzip header.designerScript variants
  let body :=
    (if 4 ≤ version then int32Bytes (if header.gridSize = 0 then 10 else header.gridSize)
      else []) ++
    int32Bytes ((jsKeys cache).length : Int) ++ ((jsKeys cache).map writeString).flatten ++
    temp ++
    int32Bytes (header.files.length : Int) ++ (header.files.map writeString).flatten ++
    int32Bytes (scriptBytes.length : Int) ++ scriptBytes
  .ok (int32Bytes version ++ int32Bytes (body.length : Int) ++ body)

/-- Model of `BJLConverter.convertJsonToBjlToBytes` (lines 153-161): header,
body, then the two feature-flag bytes.  The `json.Variants || []` style
defaults are vacuous here because the document model's fields are always
present. -/
def convertJsonToBjlToBytes (pakoGzip : Nat → Nat → Nat → List Nat → List Nat)
    (json : Design) : Except EErr (List Nat) := do
  let hdr ← writeLayoutHeader pakoGzip json.layoutHeader json.variants
  let body ← writeAllLayout json.variants json.data
  .ok (hdr ++ body ++
    [if json.fontAwesome then 1 else 0, if json.materialIcons then 1 else 0])

/-! ## Decoder (the `_read*` methods and `convertBjlToJsonFromBytes`) -/

/-- Model of `BJLConverter._readString` (lines 305-308): int32 length, that
many bytes, UTF-8 decoded. -/
def readString : Dec (List Nat) := do
  let len ← readInt
  let bs ← readBytesJS len
  pure (utf8Dec bs)

/-- The loop of `BJLConverter._loadStringsCache` (lines 293-298). -/
def readStringsLoop : Nat → Dec (List (List Nat))
  | 0 => pure []
  | n + 1 => do
    let s ← readString
    let rest ← readStringsLoop n
    pure (s :: rest)

/-- Model of `BJLConverter._loadStringsCache` (lines 293-298): a count then
that many length-prefixed strings; the loop of a negative count runs zero
times. -/
def loadStringsCache : Dec (List (List Nat)) := do
  let count ← readInt
  readStringsLoop count.toNat

/-- JS `cache[i]` on the decode-side string table.  An out-of-range or
negative index yields `undefined` in the source; it is modelled as the empty
string — no theorem below depends on that case. -/
def cacheGet (cache : List (List Nat)) (i : Int) : List Nat :=
  if h : i.toNat < cache.length then cache.get ⟨i.toNat, h⟩ else []

/-- Model of `BJLConverter._readCachedString` (lines 300-303): with an empty
cache the string is inline; otherwise an int32 index into the cache. -/
def readCachedString (cache : List (List Nat)) : Dec (List Nat) :=
  if cache.isEmpty then readString
  else do
    let i ← readInt
    pure (cacheGet cache i)

/-- Model of `BJLConverter._readMap` (lines 163-197): read a key (via the
cache) and a tag byte; stop on `EndOfMap` (4); decode a recognised tag's
payload and store it under the key; an unrecognised tag returns the map
parsed so far (the source's `default: return map`).  Fuel makes the
recursion structural; one unit is spent per loop iteration or nested map,
and every iteration first consumes at least one byte, so the caller's
choice of fuel (buffer length + 1) can never be exhausted.  Rect32 decoding
reads 8 bytes through a fresh `DataView`, which throws when fewer remain
(line 188); the color case never throws (hex of however many bytes were
sliced) and is modelled with zero-padded missing bytes, a case no theorem
exercises. -/
def readMapF : Nat → List (List Nat) → JEntries → Dec JEntries
  | 0, _, _ => fun _ => .error .underrun
  | fuel + 1, cache, acc => do
    let key ← readCachedString cache
    let t ← readSignedByte
    if t = 4 then pure acc
    else if t = 1 then do
      let n ← readInt
      readMapF fuel cache (acc.set key (.vint n))
    else if t = 9 then do
      let s ← readCachedString cache
      readMapF fuel cache (acc.set key (.vstr s))
    else if t = 7 then do
      let bits ← readFloatBits
      readMapF fuel cache (acc.set key (.vfloat bits))
    else if t = 2 then do
      let s ← readString
      readMapF fuel cache (acc.set key (.vinline s))
    else if t = 5 then do
      let b ← readSignedByte
      readMapF fuel cache (acc.set key (.vbool (b == 1)))
    else if t = 3 then do
      let m ← readMapF fuel cache .nil
      readMapF fuel cache (acc.set key (.vmap m))
    else if t = 12 then
      readMapF fuel cache (acc.set key .vnullM)
    else if t = 6 then do
      let bs ← readBytesJS 4
      readMapF fuel cache
        (acc.set key (.vcolor (bs.getD 0 0) (bs.getD 1 0) (bs.getD 2 0) (bs.getD 3 0)))
    else if t = 11 then do
      let bs ← readBytesJS 8
      if bs.length < 8 then fun _ => .error .underrun
      else
        readMapF fuel cache (acc.set key (.vrect
          (wrap16 (bs.getD 0 0 + 256 * bs.getD 1 0))
          (wrap16 (bs.getD 2 0 + 256 * bs.getD 3 0))
          (wrap16 (bs.getD 4 0 + 256 * bs.getD 5 0))
          (wrap16 (bs.getD 6 0 + 256 * bs.getD 7 0))))
    else pure acc

/-- `_readMap` entry point with the always-sufficient fuel choice. -/
def readMapD (cache : List (List Nat)) : Dec JEntries := fun s =>
  readMapF (s.length + 1) cache .nil s

/-- The varint loop of `BJLConverter._readBinaryString` (lines 241-248):
signed bytes, 7 data bits each (`b & 0x7f`), least-significant group first
(`value << shift` with JS 32-bit shift semantics), until a byte with the
high bit clear (`b === value`).  One byte is consumed per unit of fuel, so
fuel exceeding the remaining byte count is never exhausted.  The source
accumulates into a JS number; the model uses exact integer addition, which
agrees on every length any theorem evaluates. -/
def readVarintF : Nat → Int → Nat → Dec Int
  | 0, _, _ => fun _ => .error .underrun
  | fuel + 1, acc, shift => do
    let b ← readSignedByte
    let value := b % 128
    let acc2 := acc + wrap32 (value.toNat * 2 ^ (shift % 32))
    if b = value then pure acc2 else readVarintF fuel acc2 (shift + 7)

/-- Model of `BJLConverter._readBinaryString` (lines 240-251): a varint
length, then that many bytes, UTF-8 decoded. -/
def readBinaryString : Dec (List Nat) := fun s =>
  (do
    let len ← readVarintF (s.length + 1) 0 0
    let data ← readBytesJS len
    pure (utf8Dec data)) s

/-- Model of `BJLConverter._readVariantFromStream` (lines 283-285). -/
def readVariantFromStream : Dec Variant := do
  let sc ← readFloatBits
  let w ← readInt
  let h ← readInt
  pure { scale := sc, width := w, height := h }

/-- The per-variant loop inside `_readScripts` (lines 232-235): the variant
triple is read and discarded, then one script string is kept. -/
def readScriptsInnerLoop : Nat → Dec (List (List Nat))
  | 0 => pure []
  | n + 1 => do
    let _ ← readVariantFromStream
    let s ← readBinaryString
    let rest ← readScriptsInnerLoop n
    pure (s :: rest)

/-- The parse of the decompressed script sub-stream (the body of the `try`
at lines 227-236): global script, variant count, then per-variant entries.
The count is also returned so that properties about it can be stated. -/
def readScriptsInner : Dec (List (List Nat) × Int) := do
  let s0 ← readBinaryString
  let n ← readInt
  let rest ← readScriptsInnerLoop n.toNat
  pure (s0 :: rest, n)

/-- Model of `BJLConverter._readScripts` (lines 223-238): int32 block length,
that many raw bytes, gzip-decompressed and parsed; any failure inside the
`try` — decompression or a read past the end of the sub-stream — yields the
empty script list. -/
def readScripts (ungzip : List Nat → Option (List Nat)) : Dec (List (List Nat)) := do
  let len ← readInt
  let raw ← readBytesJS len
  match ungzip raw with
  | none => pure []
  | some dec =>
    match readScriptsInner dec with
    | .ok (r, _) => pure r.1
    | .error _ => pure []

/-- The control-header loop of `_readLayoutHeader` (lines 209-215). -/
def readControlsLoop (cache : List (List Nat)) : Nat → Dec (List ControlHeader)
  | 0 => pure []
  | n + 1 => do
    let nm ← readCachedString cache
    let jt ← readCachedString cache
    let dt ← readCachedString cache
    let rest ← readControlsLoop cache n
    pure ({ name := nm, javaType := jt, designerType := dt } :: rest)

/-- The conditional grid-size read of `_readLayoutHeader` (line 205): present
only for version ≥ 4; the header's default 10 is kept otherwise. -/
def readGridSize (version : Int) : Dec Int :=
  if 4 ≤ version then readInt else pure (10 : Int)

/-- The part of `_readLayoutHeader` after the skipped total-length field
(lines 205-220): grid size (version ≥ 4 only), header string cache, control
headers, files, script block. -/
def readLayoutHeaderBody (ungzip : List Nat → Option (List Nat)) (version : Int) :
    Dec LayoutHeader := do
  let gridSize ← readGridSize version
  let cache ← loadStringsCache
  let cCount ← readInt
  let chs ← readControlsLoop cache cCount.toNat
  let fCount ← readInt
  let files ← readStringsLoop fCount.toNat
  let scripts ← readScripts ungzip
  pure { version := version, gridSize := gridSize, controlsHeaders := chs, files := files,
         designerScript := scripts }

/-- Model of `BJLConverter._readLayoutHeader` (lines 199-221): version; on
`version < 3` the default header is returned at once (grid size 10, empty
lists); otherwise the 4-byte total-header-length field is skipped by
advancing the offset (`reader.offset += 4`, line 204) and the rest of the
header follows. -/
def readLayoutHeader (ungzip : List Nat → Option (List Nat)) : Dec LayoutHeader := do
  let version ← readInt
  if version < 3 then
    pure { version := version, gridSize := 10, controlsHeaders := [], files := [],
           designerScript := [] }
  else do
    let _ ← readBytesJS 4
    readLayoutHeaderBody ungzip version

/-- The variant loop of `convertBjlToJsonFromBytes` (lines 139-144). -/
def readVariantsLoop : Nat → Dec (List Variant)
  | 0 => pure []
  | n + 1 => do
    let sc ← readFloatBits
    let w ← readInt
    let h ← readInt
    let rest ← readVariantsLoop n
    pure ({ scale := sc, width := w, height := h } :: rest)

/-- Model of `BJLConverter.convertBjlToJsonFromBytes` (lines 129-151):
header; `throw new Error("Unsupported BJL version")` when its version is
below 3; body string cache; variant count and triples; root map; one
discarded int32 (footer padding); two signed bytes compared to 1 giving the
two feature flags. -/
def convertBjlToJsonFromBytes (ungzip : List Nat → Option (List Nat)) (bytes : List Nat) :
    Except DErr Design :=
  ((do
    let header ← readLayoutHeader ungzip
    if header.version < 3 then (fun _ => .error .unsupportedVersion : Dec Design)
    else do
      let cache ← loadStringsCache
      let variantCount ← readInt
      let variants ← readVariantsLoop variantCount.toNat
      let data ← readMapD cache
      let _ ← readInt
      let fa ← readSignedByte
      let mi ← readSignedByte
      pure { layoutHeader := header, variants := variants, data := data,
             fontAwesome := fa == 1, materialIcons := mi == 1 }) : Dec Design) bytes
    |>.map Prod.fst

/-! ## Stepping lemmas for the decoder monad -/

theorem bind_apply {α β : Type} (m : Dec α) (f : α → Dec β) (s : List Nat) :
    (m >>= f) s = Except.bind (m s) (fun p => f p.1 p.2) := rfl

theorem pure_apply {α : Type} (a : α) (s : List Nat) : (pure a : Dec α) s = .ok (a, s) := rfl

theorem ebind_ok {ε α β : Type} (a : α) (f : α → Except ε β) :
    Except.bind (Except.ok a) f = f a := rfl

theorem ebind_error {ε α β : Type} (e : ε) (f : α → Except ε β) :
    Except.bind (Except.error e) f = Except.error e := rfl

/-! ## Integer primitive lemmas -/

theorem toUInt32_lt (v : Int) : toUInt32 v < 2 ^ 32 := by
  unfold toUInt32; omega

theorem wrap32_mod (u : Nat) : wrap32 (u % 2 ^ 32) = wrap32 u := by
  unfold wrap32; simp [Nat.mod_mod_of_dvd]

theorem wrap32_toUInt32 (v : Int) (h1 : -2 ^ 31 ≤ v) (h2 : v < 2 ^ 31) :
    wrap32 (toUInt32 v) = v := by
  unfold wrap32 toUInt32; split <;> omega

theorem mapMod_eq_self (l : List Nat) (h : ∀ b ∈ l, b < 256) : l.map (· % 256) = l := by
  induction l with
  | nil => rfl
  | cons a t ih =>
    have ha : a < 256 := h a (by simp)
    simp only [List.map_cons, Nat.mod_eq_of_lt ha, ih (fun b hb => h b (by simp [hb]))]

theorem le4_lt (u : Nat) : ∀ b ∈ le4 u, b < 256 := by
  unfold le4; intro b hb; simp at hb; omega

theorem int32Bytes_lt (v : Int) : ∀ b ∈ int32Bytes v, b < 256 := le4_lt _

theorem le4_length (u : Nat) : (le4 u).length = 4 := rfl

theorem readInt_le4 (u : Nat) (rest : List Nat) :
    readInt (le4 u ++ rest) = .ok (wrap32 u, rest) := by
  show Except.ok (wrap32 (fromLE4 (u % 256 % 256) (u / 256 % 256 % 256)
    (u / 2 ^ 16 % 256 % 256) (u / 2 ^ 24 % 256 % 256)), rest) = _
  have e : fromLE4 (u % 256 % 256) (u / 256 % 256 % 256) (u / 2 ^ 16 % 256 % 256)
      (u / 2 ^ 24 % 256 % 256) = u % 2 ^ 32 := by
    unfold fromLE4; omega
  rw [e, wrap32_mod]

theorem readInt_int32Bytes (v : Int) (h1 : -2 ^ 31 ≤ v) (h2 : v < 2 ^ 31) (rest : List Nat) :
    readInt (int32Bytes v ++ rest) = .ok (v, rest) := by
  unfold int32Bytes
  rw [readInt_le4, wrap32_toUInt32 v h1 h2]

theorem readBytesJS_exact (l rest : List Nat) (n : Int) (hn : n.toNat = l.length)
    (hb : ∀ b ∈ l, b < 256) : readBytesJS n (l ++ rest) = .ok (l, rest) := by
  unfold readBytesJS
  rw [hn, List.take_left, List.drop_left, mapMod_eq_self l hb]

theorem toUInt16_lt (v : Int) : toUInt16 v < 2 ^ 16 := by
  unfold toUInt16; omega

theorem int16Bytes_lt (v : Int) : ∀ b ∈ int16Bytes v, b < 256 := by
  unfold int16Bytes
  intro b hb
  have := toUInt16_lt v
  simp at hb; omega

theorem int16Bytes_recombine (v : Int) :
    int16Bytes v = [toUInt16 v % 256, toUInt16 v / 256] ∧
      toUInt16 v % 256 + 256 * (toUInt16 v / 256) = toUInt16 v := by
  refine ⟨rfl, by omega⟩

/-! ## UTF-8 lemmas -/

theorem utf8Char_lt (c : Nat) (h : c < 0x110000) : ∀ b ∈ utf8Char c, b < 256 := by
  unfold utf8Char
  split_ifs <;> (intro b hb; simp at hb; omega)

theorem utf8_lt (s : List Nat) (h : ValidStr s) : ∀ b ∈ utf8 s, b < 256 := by
  intro b hb
  simp only [utf8, List.mem_flatten, List.mem_map] at hb
  obtain ⟨l, ⟨c, hc, rfl⟩, hbl⟩ := hb
  exact utf8Char_lt c (h c hc).1 b hbl

set_option maxRecDepth 8000 in
theorem utf8DecF_char (c : Nat) (hc : ValidCp c) (fuel : Nat) (rest : List Nat) :
    utf8DecF (fuel + 1) (utf8Char c ++ rest) = c :: utf8DecF fuel rest := by
  obtain ⟨hlt, _⟩ := hc
  by_cases h1 : c < 0x80
  · have e : utf8Char c = [c] := by simp [utf8Char, h1]
    rw [e]
    show utf8DecF (fuel + 1) (c :: rest) = _
    simp only [utf8DecF]
    rw [if_pos h1]
  · by_cases h2 : c < 0x800
    · have e : utf8Char c = [0xC0 + c / 64, 0x80 + c % 64] := by
        unfold utf8Char; rw [if_neg h1, if_pos h2]
      rw [e]
      show utf8DecF (fuel + 1) ((0xC0 + c / 64) :: (0x80 + c % 64) :: rest) = _
      simp only [utf8DecF]
      rw [if_neg (by omega), if_neg (by omega), if_pos (by omega), if_pos (by omega)]
      congr 1
      omega
    · by_cases h3 : c < 0x10000
      · have e : utf8Char c = [0xE0 + c / 4096, 0x80 + c / 64 % 64, 0x80 + c % 64] := by
          unfold utf8Char; rw [if_neg h1, if_neg h2, if_pos h3]
        rw [e]
        show utf8DecF (fuel + 1)
          ((0xE0 + c / 4096) :: (0x80 + c / 64 % 64) :: (0x80 + c % 64) :: rest) = _
        simp only [utf8DecF]
        rw [if_neg (by omega), if_neg (by omega), if_neg (by omega), if_pos (by omega),
          if_pos (by constructor <;> omega)]
        congr 1
        omega
      · have e : utf8Char c =
            [0xF0 + c / 262144, 0x80 + c / 4096 % 64, 0x80 + c / 64 % 64, 0x80 + c % 64] := by
          unfold utf8Char; rw [if_neg h1, if_neg h2, if_neg h3]
        rw [e]
        show utf8DecF (fuel + 1) ((0xF0 + c / 262144) :: (0x80 + c / 4096 % 64) ::
          (0x80 + c / 64 % 64) :: (0x80 + c % 64) :: rest) = _
        simp only [utf8DecF]
        rw [if_neg (by omega), if_neg (by omega), if_neg (by omega), if_neg (by omega),
          if_pos (by omega), if_pos (by refine ⟨by omega, by omega, by omega⟩)]
        congr 1
        omega

theorem utf8DecF_utf8 (s : List Nat) (hs : ValidStr s) (fuel : Nat) (hf : s.length ≤ fuel) :
    utf8DecF fuel (utf8 s) = s := by
  induction s generalizing fuel with
  | nil =>
    cases fuel with
    | zero => rfl
    | succ n => rfl
  | cons c t ih =>
    cases fuel with
    | zero => simp at hf
    | succ n =>
      have e : utf8 (c :: t) = utf8Char c ++ utf8 t := by simp [utf8]
      rw [e, utf8DecF_char c (hs c (by simp)) n (utf8 t)]
      rw [ih (fun x hx => hs x (by simp [hx])) n (by simpa using hf)]

theorem length_le_utf8_length (s : List Nat) : s.length ≤ (utf8 s).length := by
  induction s with
  | nil => simp [utf8]
  | cons c t ih =>
    have e : utf8 (c :: t) = utf8Char c ++ utf8 t := by simp [utf8]
    have hc : 1 ≤ (utf8Char c).length := by
      unfold utf8Char; split_ifs <;> simp
    rw [e]
    simp only [List.length_append, List.length_cons]
    omega

theorem utf8Dec_utf8 (s : List Nat) (hs : ValidStr s) : utf8Dec (utf8 s) = s :=
  utf8DecF_utf8 s hs (utf8 s).length (length_le_utf8_length s)

theorem readString_writeString (s : List Nat) (hv : ValidStr s)
    (hl : ((utf8 s).length : Int) < 2 ^ 31) (rest : List Nat) :
    readString (writeString s ++ rest) = .ok (s, rest) := by
  have e1 : writeString s ++ rest = int32Bytes ((utf8 s).length : Int) ++ (utf8 s ++ rest) := by
    simp [writeString]
  rw [e1]
  unfold readString
  rw [bind_apply, readInt_int32Bytes ((utf8 s).length : Int) (by omega) hl, ebind_ok]
  simp only []
  rw [bind_apply, readBytesJS_exact (utf8 s) rest _ (by simp) (utf8_lt s hv), ebind_ok]
  simp only []
  rw [pure_apply, utf8Dec_utf8 s hv]

/-! ## Varint round trip -/

theorem varintBytesF_lt (fuel len : Nat) : ∀ b ∈ varintBytesF fuel len, b < 256 := by
  induction fuel generalizing len with
  | zero => simp [varintBytesF]
  | succ f ih =>
    intro b hb
    unfold varintBytesF at hb
    by_cases h : len < 128
    · rw [if_pos h] at hb; simp at hb; omega
    · rw [if_neg h] at hb
      rcases List.mem_cons.mp hb with h1 | h2
      · omega
      · exact ih (len / 128) b h2

/-- A string that every read/write primitive round-trips: valid code points
and an int32-representable UTF-8 byte length. -/
def WFStr (s : List Nat) : Prop := ValidStr s ∧ ((utf8 s).length : Int) < 2 ^ 31

theorem readCachedString_empty (s : List Nat) (hs : WFStr s) (rest : List Nat) :
    writeCachedString [] s = .ok (writeString s) ∧
      readCachedString [] (writeString s ++ rest) = .ok (s, rest) := by
  constructor
  · rfl
  · unfold readCachedString
    simp only [List.isEmpty_nil, if_pos]
    exact readString_writeString s hs.1 hs.2 rest

mutual

def JVal.WF : JVal → Prop
  | .vint n => -2 ^ 31 ≤ n ∧ n < 2 ^ 31
  | .vnum => False
  | .vundef => False
  | .vstr s => WFStr s
  | .vbool _ => True
  | .vnull => False
  | .vfloat bits => bits < 2 ^ 32
  | .vinline s => WFStr s
  | .vcolor b0 b1 b2 b3 => b0 < 256 ∧ b1 < 256 ∧ b2 < 256 ∧ b3 < 256
  | .vrect r0 r1 r2 r3 =>
    (-2 ^ 15 ≤ r0 ∧ r0 < 2 ^ 15) ∧ (-2 ^ 15 ≤ r1 ∧ r1 < 2 ^ 15) ∧
      (-2 ^ 15 ≤ r2 ∧ r2 < 2 ^ 15) ∧ (-2 ^ 15 ≤ r3 ∧ r3 < 2 ^ 15)
  | .vnullM => True
  | .vmap m => m.WF

def JEntries.WF : JEntries → Prop
  | .nil => True
  | .cons k v r => WFStr k ∧ k ∉ r.keys ∧ JVal.WF v ∧ JEntries.WF r

end

/-! ## Membership lemmas for the insertion-ordered string table -/

theorem mem_insertIfAbsent_mono (acc : List (List Nat)) (t s : List Nat) (h : s ∈ acc) :
    s ∈ insertIfAbsent acc t := by
  by_cases ht : t ∈ acc
  · unfold insertIfAbsent
    rw [if_pos ht]
    exact h
  · simp [insertIfAbsent, ht]
    exact Or.inl h

theorem mem_insertIfAbsent_self (acc : List (List Nat)) (t : List Nat) :
    t ∈ insertIfAbsent acc t := by
  by_cases ht : t ∈ acc
  · unfold insertIfAbsent
    rw [if_pos ht]
    exact ht
  · simp [insertIfAbsent, ht]

theorem insertIfAbsent_WFStr (acc : List (List Nat)) (t : List Nat)
    (hacc : ∀ s ∈ acc, WFStr s) (ht : WFStr t) : ∀ s ∈ insertIfAbsent acc t, WFStr s := by
  intro s hs
  by_cases hmem : t ∈ acc
  · exact hacc s (by simpa [insertIfAbsent, hmem] using hs)
  · simp [insertIfAbsent, hmem] at hs
    rcases hs with h1 | h2
    · exact hacc s h1
    · rw [h2]; exact ht

mutual

theorem mem_collectStringsVal_mono : ∀ (v : JVal) (acc : List (List Nat)) (s : List Nat),
    s ∈ acc → s ∈ collectStringsVal v acc
  | .vmap m, acc, s, h => mem_collectStringsInOrder_mono m acc s h
  | .vinline t, acc, s, h => mem_insertIfAbsent_mono acc t s h
  | .vstr t, acc, s, h => mem_insertIfAbsent_mono acc t s h
  | .vint _, _, _, h => h
  | .vnum, _, _, h => h
  | .vundef, _, _, h => h
  | .vbool _, _, _, h => h
  | .vnull, _, _, h => h
  | .vfloat _, _, _, h => h
  | .vcolor _ _ _ _, _, _, h => h
  | .vrect _ _ _ _, _, _, h => h
  | .vnullM, _, _, h => h

theorem mem_collectStringsInOrder_mono : ∀ (m : JEntries) (acc : List (List Nat))
    (s : List Nat), s ∈ acc → s ∈ collectStringsInOrder m acc
  | .nil, _, _, h => h
  | .cons k v r, acc, s, h =>
    mem_collectStringsInOrder_mono r _ s
      (mem_collectStringsVal_mono v _ s (mem_insertIfAbsent_mono acc k s h))

end

/-! ## Which strings the body decoder needs to find in the cache -/

mutual

/-- The strings a value's encoding refers to by cache index: the payload of a
bare string value, and recursively those of a nested map. -/
def JVal.StringsIn : JVal → List (List Nat) → Prop
  | .vmap m, c => m.StringsIn c
  | .vstr s, c => s ∈ c
  | _, _ => True

/-- The strings a map's encoding refers to by cache index: every key, plus
those of every value. -/
def JEntries.StringsIn : JEntries → List (List Nat) → Prop
  | .nil, _ => True
  | .cons k v r, c => k ∈ c ∧ JVal.StringsIn v c ∧ JEntries.StringsIn r c

end

mutual

theorem stringsIn_mono_val : ∀ (v : JVal) (c c2 : List (List Nat)),
    (∀ x ∈ c, x ∈ c2) → JVal.StringsIn v c → JVal.StringsIn v c2
  | .vmap m, c, c2, hsub, h => stringsIn_mono_entries m c c2 hsub h
  | .vstr s, _, _, hsub, h => hsub s h
  | .vint _, _, _, _, h => h
  | .vnum, _, _, _, h => h
  | .vundef, _, _, _, h => h
  | .vbool _, _, _, _, h => h
  | .vnull, _, _, _, h => h
  | .vfloat _, _, _, _, h => h
  | .vinline _, _, _, _, h => h
  | .vcolor _ _ _ _, _, _, _, h => h
  | .vrect _ _ _ _, _, _, _, h => h
  | .vnullM, _, _, _, h => h

theorem stringsIn_mono_entries : ∀ (m : JEntries) (c c2 : List (List Nat)),
    (∀ x ∈ c, x ∈ c2) → JEntries.StringsIn m c → JEntries.StringsIn m c2
  | .nil, _, _, _, h => h
  | .cons k v r, c, c2, hsub, h =>
    ⟨hsub k h.1, stringsIn_mono_val v c c2 hsub h.2.1, stringsIn_mono_entries r c c2 hsub h.2.2⟩

end

mutual

theorem stringsIn_collectVal : ∀ (v : JVal) (acc : List (List Nat)),
    JVal.StringsIn v (collectStringsVal v acc)
  | .vmap m, acc => stringsIn_collect m acc
  | .vstr s, acc => mem_insertIfAbsent_self acc s
  | .vint _, _ => trivial
  | .vnum, _ => trivial
  | .vundef, _ => trivial
  | .vbool _, _ => trivial
  | .vnull, _ => trivial
  | .vfloat _, _ => trivial
  | .vinline _, _ => trivial
  | .vcolor _ _ _ _, _ => trivial
  | .vrect _ _ _ _, _ => trivial
  | .vnullM, _ => trivial

theorem stringsIn_collect : ∀ (m : JEntries) (acc : List (List Nat)),
    JEntries.StringsIn m (collectStringsInOrder m acc)
  | .nil, _ => trivial
  | .cons k v r, acc =>
    ⟨mem_collectStringsInOrder_mono r _ k
        (mem_collectStringsVal_mono v _ k (mem_insertIfAbsent_self acc k)),
      stringsIn_mono_val v _ _
        (fun x hx => mem_collectStringsInOrder_mono r _ x hx)
        (stringsIn_collectVal v (insertIfAbsent acc k)),
      stringsIn_collect r (collectStringsVal v (insertIfAbsent acc k))⟩

end

mutual

theorem collectVal_WFStr : ∀ (v : JVal) (acc : List (List Nat)),
    (∀ s ∈ acc, WFStr s) → JVal.WF v → ∀ s ∈ collectStringsVal v acc, WFStr s
  | .vmap m, acc, hacc, hwf => collect_WFStr m acc hacc hwf
  | .vstr t, acc, hacc, hwf => insertIfAbsent_WFStr acc t hacc hwf
  | .vinline t, acc, hacc, hwf => insertIfAbsent_WFStr acc t hacc hwf
  | .vint _, _, hacc, _ => hacc
  | .vnum, _, hacc, _ => hacc
  | .vundef, _, hacc, _ => hacc
  | .vbool _, _, hacc, _ => hacc
  | .vnull, _, hacc, _ => hacc
  | .vfloat _, _, hacc, _ => hacc
  | .vcolor _ _ _ _, _, hacc, _ => hacc
  | .vrect _ _ _ _, _, hacc, _ => hacc
  | .vnullM, _, hacc, _ => hacc

theorem collect_WFStr : ∀ (m : JEntries) (acc : List (List Nat)),
    (∀ s ∈ acc, WFStr s) → JEntries.WF m → ∀ s ∈ collectStringsInOrder m acc, WFStr s
  | .nil, _, hacc, _ => hacc
  | .cons k v r, acc, hacc, hwf =>
    collect_WFStr r _
      (collectVal_WFStr v _ (insertIfAbsent_WFStr acc k hacc hwf.1) hwf.2.2.1)
      hwf.2.2.2

end

/-- Concatenation of two ordered maps (used to describe the decoder's
accumulator). -/
def JEntries.append : JEntries → JEntries → JEntries
  | .nil, m2 => m2
  | .cons k v r, m2 => .cons k v (r.append m2)

theorem JEntries.append_nil : ∀ (m : JEntries), m.append .nil = m
  | .nil => rfl
  | .cons k v r => by
    show JEntries.cons k v (r.append .nil) = _
    rw [JEntries.append_nil r]

mutual

/-- Fuel needed by `readMapF` to decode this value's encoding (one unit per
loop iteration or nested-map call). -/
def JVal.weight : JVal → Nat
  | .vmap m => m.weight
  | _ => 0

/-- Fuel needed by `readMapF` to decode this entry list plus its trailing
empty key and EndOfMap byte. -/
def JEntries.weight : JEntries → Nat
  | .nil => 1
  | .cons _ v r => 1 + v.weight + r.weight

end

theorem writeString_nil : writeString [] = [0, 0, 0, 0] := rfl

mutual

theorem weight_le_val : ∀ (v : JVal) (cache : List (List Nat)) (vb : List Nat),
    writeMapValue cache v = .ok vb → JVal.weight v ≤ vb.length
  | .vmap m2, cache, vb, h => by
    have hb : writeMapValue cache (.vmap m2) = Except.bind (writeMapEntries cache m2)
        (fun eb => Except.ok (3 :: (eb ++ writeString [] ++ [4]))) := rfl
    rw [hb] at h
    cases hw : writeMapEntries cache m2 with
    | error e =>
      rw [hw] at h
      exact Except.noConfusion h
    | ok eb =>
      rw [hw, ebind_ok] at h
      have h3 : 3 :: (eb ++ writeString [] ++ [4]) = vb := by
        injection h
      have hle := weight_le_entries m2 cache eb hw
      rw [← h3]
      show JEntries.weight m2 ≤ _
      simp only [List.length_cons, List.length_append, writeString_nil]
      omega
  | .vint _, _, _, _ => Nat.zero_le _
  | .vnum, _, _, _ => Nat.zero_le _
  | .vundef, _, _, _ => Nat.zero_le _
  | .vstr _, _, _, _ => Nat.zero_le _
  | .vbool _, _, _, _ => Nat.zero_le _
  | .vnull, _, _, _ => Nat.zero_le _
  | .vfloat _, _, _, _ => Nat.zero_le _
  | .vinline _, _, _, _ => Nat.zero_le _
  | .vcolor _ _ _ _, _, _, _ => Nat.zero_le _
  | .vrect _ _ _ _, _, _, _ => Nat.zero_le _
  | .vnullM, _, _, _ => Nat.zero_le _

theorem weight_le_entries : ∀ (m : JEntries) (cache : List (List Nat)) (bs : List Nat),
    writeMapEntries cache m = .ok bs → JEntries.weight m ≤ bs.length + 1
  | .nil, _, bs, h => by
    have h2 : ([] : List Nat) = bs := by injection h
    rw [← h2]
    exact le_refl _
  | .cons k v r, cache, bs, h => by
    have hb : writeMapEntries cache (.cons k v r) = Except.bind (writeCachedString cache k)
        (fun kb => Except.bind (writeMapValue cache v)
          (fun vb => Except.bind (writeMapEntries cache r)
            (fun rb => Except.ok (kb ++ vb ++ rb)))) := rfl
    rw [hb] at h
    cases hk : writeCachedString cache k with
    | error e => rw [hk] at h; exact Except.noConfusion h
    | ok kb =>
      rw [hk, ebind_ok] at h
      cases hv : writeMapValue cache v with
      | error e => rw [hv] at h; exact Except.noConfusion h
      | ok vb =>
        rw [hv, ebind_ok] at h
        cases hr : writeMapEntries cache r with
        | error e => rw [hr] at h; exact Except.noConfusion h
        | ok rb =>
          rw [hr, ebind_ok] at h
          have h3 : kb ++ vb ++ rb = bs := by injection h
          have hwv := weight_le_val v cache vb hv
          have hwr := weight_le_entries r cache rb hr
          have hkb : 1 ≤ kb.length := by
            unfold writeCachedString at hk
            by_cases hemp : cache.isEmpty
            · rw [if_pos hemp] at hk
              have : writeString k = kb := by injection hk
              rw [← this]
              unfold writeString
              simp [int32Bytes, le4]
            · rw [if_neg hemp] at hk
              by_cases hmem : k ∈ cache
              · rw [if_pos hmem] at hk
                have : int32Bytes ((idxOf k cache : Nat) : Int) = kb := by injection hk
                rw [← this]
                simp [int32Bytes, le4]
              · rw [if_neg hmem] at hk
                exact Except.noConfusion hk
          rw [← h3]
          show 1 + JVal.weight v + JEntries.weight r ≤ _
          simp only [List.length_append]
          omega

end

/-! ## Variant triple round trip -/

/-- A variant the codec round-trips exactly: the scale's float32 pattern is
not falsy (`v.Scale || 1` would replace a zero or NaN scale by 1.0), and the
dimensions are genuine int32 values. -/
def Variant.WF (v : Variant) : Prop :=
  v.scale < 2 ^ 32 ∧ ¬f32Falsy v.scale ∧
    (-2 ^ 31 ≤ v.width ∧ v.width < 2 ^ 31) ∧ (-2 ^ 31 ≤ v.height ∧ v.height < 2 ^ 31)

/-- Well-formed control header: three round-trippable strings. -/
def ControlHeader.WF (ch : ControlHeader) : Prop :=
  WFStr ch.name ∧ WFStr ch.javaType ∧ WFStr ch.designerType

theorem insertIfAbsent_ne_nil (acc : List (List Nat)) (s : List Nat) :
    insertIfAbsent acc s ≠ [] :=
  List.ne_nil_of_mem (mem_insertIfAbsent_self acc s)

/-- Decoding the encoding, as one operation (used to state the round-trip
claims; `none` when either direction throws). -/
def roundTrip (pakoGzip : Nat → Nat → Nat → List Nat → List Nat)
    (ungzip : List Nat → Option (List Nat)) (j : Design) : Option Design :=
  match convertJsonToBjlToBytes pakoGzip j with
  | .ok bs => (convertBjlToJsonFromBytes ungzip bs).toOption
  | .error _ => none

/-- A document in the decoder's image, with every numeric field inside the
range its fixed-width encoding represents exactly, every string valid,
every table below the int32 count limit, a non-falsy scale on every variant
(`v.Scale || 1`), a grid size that survives the `|| 10` default, exactly
`1 + variantCount` ASCII designer scripts (the script varint prefix counts
UTF-16 units but the reader consumes bytes, so only strings with equal
counts survive), a header string cache on which `Object.keys` enumeration
is the identity — the control-header triples record insertion-position
indices but the table is written in `jsKeys` order, so only documents whose
header cache the reordering leaves in place survive (in particular any with
no array-index-like control-header string) — and a version in `[3, 2^31)`. -/
def Design.WF (j : Design) : Prop :=
  3 ≤ j.layoutHeader.version ∧ j.layoutHeader.version < 2 ^ 31 ∧
  (4 ≤ j.layoutHeader.version → j.layoutHeader.gridSize ≠ 0 ∧
    -2 ^ 31 ≤ j.layoutHeader.gridSize ∧ j.layoutHeader.gridSize < 2 ^ 31) ∧
  (j.layoutHeader.version = 3 → j.layoutHeader.gridSize = 10) ∧
  (∀ ch ∈ j.layoutHeader.controlsHeaders, ControlHeader.WF ch) ∧
  ((j.layoutHeader.controlsHeaders.length : Nat) : Int) < 2 ^ 31 ∧
  (((buildHeaderCache j.layoutHeader.controlsHeaders).length : Nat) : Int) < 2 ^ 31 ∧
  jsKeys (buildHeaderCache j.layoutHeader.controlsHeaders) =
    buildHeaderCache j.layoutHeader.controlsHeaders ∧
  (∀ f ∈ j.layoutHeader.files, WFStr f) ∧
  ((j.layoutHeader.files.length : Nat) : Int) < 2 ^ 31 ∧
  j.layoutHeader.designerScript.length = 1 + j.variants.length ∧
  (∀ s ∈ j.layoutHeader.designerScript, (∀ c ∈ s, c < 0x80) ∧ utf16Len s < 2 ^ 31) ∧
  (∀ v ∈ j.variants, Variant.WF v) ∧
  ((j.variants.length : Nat) : Int) < 2 ^ 31 ∧
  j.data.WF ∧
  (((collectStringsInOrder j.data []).length : Nat) : Int) < 2 ^ 31

/-- The identity stand-in for `pako.gzip` (arguments: level, mtime, os,
bytes), used to evaluate the codec at concrete documents. -/
def gzipId : Nat → Nat → Nat → List Nat → List Nat := fun _ _ _ b => b

/-- The matching stand-in for `pako.ungzip`: inverts `gzipId` and never
fails. -/
def ungzipId : List Nat → Option (List Nat) := fun b => some b

/-- The specification's worked scenario: version 4, grid size 10, no control
headers and no files, an empty global script plus one empty variant script,
a single variant at scale 1.0 (float32 pattern `0x3F800000`) and 600 × 600,
root map `{"title": inline "Hello"}`, Font Awesome on, Material Icons
off. -/
def designExample : Design :=
  { layoutHeader :=
      { version := 4, gridSize := 10, controlsHeaders := [], files := [],
        designerScript := [[], []] },
    variants := [{ scale := 0x3F800000, width := 600, height := 600 }],
    data := .cons [0x74, 0x69, 0x74, 0x6C, 0x65] (.vinline [0x48, 0x65, 0x6C, 0x6C, 0x6F]) .nil,
    fontAwesome := true, materialIcons := false }

/-- A document whose root map holds one entry with a bare non-integer number
(`{"k": 2.5}` with no explicit type marker): `_writeMap` has no branch
for such a value. -/
def designNum : Design :=
  { layoutHeader := designExample.layoutHeader,
    variants := designExample.variants,
    data := .cons [0x6B] .vnum .nil,
    fontAwesome := false, materialIcons := false }

/-! ## Decidability of the well-formedness predicates

These instances let concrete documents be checked by `decide`. -/

instance (c : Nat) : Decidable (ValidCp c) := by unfold ValidCp; infer_instance

instance (s : List Nat) : Decidable (ValidStr s) := by unfold ValidStr; infer_instance

instance (s : List Nat) : Decidable (WFStr s) := by unfold WFStr; infer_instance

mutual

def decJValWF : (v : JVal) → Decidable v.WF
  | .vint n => inferInstanceAs (Decidable (-2 ^ 31 ≤ n ∧ n < 2 ^ 31))
  | .vnum => inferInstanceAs (Decidable False)
  | .vundef => inferInstanceAs (Decidable False)
  | .vstr s => inferInstanceAs (Decidable (WFStr s))
  | .vbool _ => inferInstanceAs (Decidable True)
  | .vnull => inferInstanceAs (Decidable False)
  | .vfloat bits => inferInstanceAs (Decidable (bits < 2 ^ 32))
  | .vinline s => inferInstanceAs (Decidable (WFStr s))
  | .vcolor b0 b1 b2 b3 =>
    inferInstanceAs (Decidable (b0 < 256 ∧ b1 < 256 ∧ b2 < 256 ∧ b3 < 256))
  | .vrect r0 r1 r2 r3 =>
    inferInstanceAs (Decidable ((-2 ^ 15 ≤ r0 ∧ r0 < 2 ^ 15) ∧ (-2 ^ 15 ≤ r1 ∧ r1 < 2 ^ 15) ∧
      (-2 ^ 15 ≤ r2 ∧ r2 < 2 ^ 15) ∧ (-2 ^ 15 ≤ r3 ∧ r3 < 2 ^ 15)))
  | .vnullM => inferInstanceAs (Decidable True)
  | .vmap m => decJEntriesWF m

def decJEntriesWF : (m : JEntries) → Decidable m.WF
  | .nil => inferInstanceAs (Decidable True)
  | .cons _ v r =>
    @instDecidableAnd _ _ inferInstance
      (@instDecidableAnd _ _ inferInstance
        (@instDecidableAnd _ _ (decJValWF v) (decJEntriesWF r)))

end

instance (v : JVal) : Decidable v.WF := decJValWF v

instance (m : JEntries) : Decidable m.WF := decJEntriesWF m

instance (v : Variant) : Decidable v.WF := by unfold Variant.WF; infer_instance

instance (ch : ControlHeader) : Decidable ch.WF := by unfold ControlHeader.WF; infer_instance

instance (j : Design) : Decidable j.WF := by unfold Design.WF; infer_instance

/-! ## The string occurrences of a value tree

An occurrence list that makes the collector's order and deduplication exact:
`_collectStringsInOrder` visits each entry's key, then the value, collecting
keys, bare string values, and the `Value` of an explicit inline-string
marker (lines 413-427). -/

mutual

/-- The string occurrences of one value, in `_collectStringsInOrder`'s
traversal order. -/
def JVal.stringOccs : JVal → List (List Nat)
  | .vmap m => m.stringOccs
  | .vstr s => [s]
  | .vinline s => [s]
  | _ => []

/-- The string occurrences of a map's entries, keys first, in entry order. -/
def JEntries.stringOccs : JEntries → List (List Nat)
  | .nil => []
  | .cons k v r => k :: (v.stringOccs ++ r.stringOccs)

end

mutual

theorem collectVal_eq_foldl : ∀ (v : JVal) (acc : List (List Nat)),
    collectStringsVal v acc = v.stringOccs.foldl insertIfAbsent acc
  | .vmap m, acc => collect_eq_foldl m acc
  | .vstr _, _ => rfl
  | .vinline _, _ => rfl
  | .vint _, _ => rfl
  | .vnum, _ => rfl
  | .vundef, _ => rfl
  | .vbool _, _ => rfl
  | .vnull, _ => rfl
  | .vfloat _, _ => rfl
  | .vcolor _ _ _ _, _ => rfl
  | .vrect _ _ _ _, _ => rfl
  | .vnullM, _ => rfl

theorem collect_eq_foldl : ∀ (m : JEntries) (acc : List (List Nat)),
    collectStringsInOrder m acc = m.stringOccs.foldl insertIfAbsent acc
  | .nil, _ => rfl
  | .cons k v r, acc => by
    rw [show collectStringsInOrder (.cons k v r) acc =
      collectStringsInOrder r (collectStringsVal v (insertIfAbsent acc k)) from rfl]
    rw [collect_eq_foldl r _, collectVal_eq_foldl v _]
    simp [JEntries.stringOccs, List.foldl_append]

end

mutual

/-- Value dispatch per the claim's wording: recurse into nested maps,
collect bare string values, skip inline-marked values. -/
def claimCollectVal : JVal → List (List Nat) → List (List Nat)
  | .vmap m, acc => claimCollectEntries m acc
  | .vstr s, acc => insertIfAbsent acc s
  | _, acc => acc

/-- Entry traversal per the claim's wording: keys, then values. -/
def claimCollectEntries : JEntries → List (List Nat) → List (List Nat)
  | .nil, acc => acc
  | .cons k v rest, acc => claimCollectEntries rest (claimCollectVal v (insertIfAbsent acc k))

end

theorem readScriptsInnerLoop_length : ∀ (k : Nat) (s : List Nat) (l : List (List Nat))
    (s2 : List Nat), readScriptsInnerLoop k s = .ok (l, s2) → l.length = k := by
  intro k
  induction k with
  | zero =>
    intro s l s2 h
    rw [show readScriptsInnerLoop 0 s = Except.ok ([], s) from rfl] at h
    injection h with hp
    injection hp with h1 h2
    rw [← h1]
    rfl
  | succ n ih =>
    intro s l s2 h
    unfold readScriptsInnerLoop at h
    rw [bind_apply (m := readVariantFromStream)] at h
    cases hv : readVariantFromStream s with
    | error e => rw [hv] at h; exact absurd h (by simp [Except.bind])
    | ok p =>
      obtain ⟨v, s1⟩ := p
      rw [hv, ebind_ok] at h
      simp only [] at h
      rw [bind_apply (m := readBinaryString)] at h
      cases hb : readBinaryString s1 with
      | error e => rw [hb] at h; exact absurd h (by simp [Except.bind])
      | ok q =>
        obtain ⟨s0, sr⟩ := q
        rw [hb, ebind_ok] at h
        simp only [] at h
        rw [bind_apply (m := readScriptsInnerLoop n)] at h
        cases hl : readScriptsInnerLoop n sr with
        | error e => rw [hl] at h; exact absurd h (by simp [Except.bind])
        | ok r =>
          obtain ⟨l2, s3⟩ := r
          rw [hl, ebind_ok] at h
          simp only [] at h
          rw [pure_apply] at h
          injection h with hp
          injection hp with h1 h2
          rw [← h1, List.length_cons, ih sr l2 s3 hl]

theorem readScriptsInner_shape (dec : List Nat) (scripts : List (List Nat)) (cnt : Int)
    (left : List Nat) (h : readScriptsInner dec = .ok ((scripts, cnt), left)) :
    scripts.length = 1 + cnt.toNat := by
  unfold readScriptsInner at h
  rw [bind_apply (m := readBinaryString)] at h
  cases hs0 : readBinaryString dec with
  | error e => rw [hs0] at h; exact absurd h (by simp [Except.bind])
  | ok p =>
    obtain ⟨s0, d1⟩ := p
    rw [hs0, ebind_ok] at h
    simp only [] at h
    rw [bind_apply (m := readInt)] at h
    cases hn : readInt d1 with
    | error e => rw [hn] at h; exact absurd h (by simp [Except.bind])
    | ok q =>
      obtain ⟨n, d2⟩ := q
      rw [hn, ebind_ok] at h
      simp only [] at h
      rw [bind_apply (m := readScriptsInnerLoop n.toNat)] at h
      cases hl : readScriptsInnerLoop n.toNat d2 with
      | error e => rw [hl] at h; exact absurd h (by simp [Except.bind])
      | ok r =>
        obtain ⟨l, d3⟩ := r
        rw [hl, ebind_ok] at h
        simp only [] at h
        rw [pure_apply] at h
        injection h with hp
        injection hp with h1 h2
        injection h1 with h3 h4
        rw [← h3, ← h4, List.length_cons, readScriptsInnerLoop_length n.toNat d2 l d3 hl]
        omega


/-! ## The claims -/

/-- C2: the encoder is a deterministic function of the document and of the
compression adapter's behaviour at the fixed invocation `level 1, mtime 0,
os 0` — the only call the encoder ever makes (`CompressBytes`, line 99).
Two adapters that agree there produce byte-identical encoder output on every
document; in particular, re-encoding with the same adapter is byte-identical. -/
theorem c2_encode_deterministic (g1 g2 : Nat → Nat → Nat → List Nat → List Nat)
    (j : Design) (h : ∀ b, g1 1 0 0 b = g2 1 0 0 b) :
    convertJsonToBjlToBytes g1 j = convertJsonToBjlToBytes g2 j := by
  unfold convertJsonToBjlToBytes writeLayoutHeader writeScripts
  rw [h]

/-- Witness for C2: the identity adapter against a differently written
adapter with the same behaviour. -/
theorem c2_encode_deterministic_witness :
    convertJsonToBjlToBytes gzipId designExample =
      convertJsonToBjlToBytes (fun _ _ _ b => b ++ []) designExample :=
  c2_encode_deterministic gzipId (fun _ _ _ b => b ++ []) designExample
    (fun b => (List.append_nil b).symm)

/-- C3: a buffer whose leading int32 version field decodes below 3 fails
with `UnsupportedVersion`, whatever bytes follow — the version field is the
only part of the input read before the throw. -/
theorem c3_unsupported_version (ungzip : List Nat → Option (List Nat)) (v : Int)
    (h1 : -2 ^ 31 ≤ v) (h2 : v < 3) (rest : List Nat) :
    convertBjlToJsonFromBytes ungzip (int32Bytes v ++ rest) =
      .error .unsupportedVersion := by
  have hh : readLayoutHeader ungzip (int32Bytes v ++ rest) =
      .ok ({ version := v, gridSize := 10, controlsHeaders := [], files := [],
             designerScript := [] }, rest) := by
    unfold readLayoutHeader
    rw [bind_apply (m := readInt), readInt_int32Bytes v h1 (by omega), ebind_ok]
    simp only []
    rw [if_pos h2]
    rfl
  unfold convertBjlToJsonFromBytes
  rw [bind_apply (m := readLayoutHeader ungzip), hh, ebind_ok]
  simp only []
  rw [if_pos h2]
  rfl

/-- Witness for C3 at version 2. -/
theorem c3_unsupported_version_witness :
    convertBjlToJsonFromBytes ungzipId (int32Bytes 2 ++ [9, 9, 9]) =
      .error .unsupportedVersion :=
  c3_unsupported_version ungzipId 2 (by decide) (by decide) [9, 9, 9]


/-- C4: inside `_readMap`, after a key and a tag byte have been read, a tag
that is none of the recognised tags 1, 2, 3, 5, 6, 7, 9, 11, 12 and not the
EndOfMap sentinel 4 makes the map decode stop and return the entries parsed
so far with no error; the stream is left right after the tag byte. -/
theorem c4_unknown_tag_returns_partial (fuel : Nat) (cache : List (List Nat))
    (acc : JEntries) (s s1 s2 : List Nat) (k : List Nat) (t : Int)
    (hk : readCachedString cache s = .ok (k, s1))
    (ht : readSignedByte s1 = .ok (t, s2))
    (hn : t ∉ ([1, 2, 3, 4, 5, 6, 7, 9, 11, 12] : List Int)) :
    readMapF (fuel + 1) cache acc s = .ok (acc, s2) := by
  simp only [List.mem_cons, List.not_mem_nil, or_false, not_or] at hn
  obtain ⟨h1, h2, h3, h4, h5, h6, h7, h9, h11, h12⟩ := hn
  unfold readMapF
  rw [bind_apply (m := readCachedString cache), hk, ebind_ok]
  simp only []
  rw [bind_apply (m := readSignedByte), ht, ebind_ok]
  simp only []
  rw [if_neg h4, if_neg h1, if_neg h9, if_neg h7, if_neg h2, if_neg h5, if_neg h3,
    if_neg h12, if_neg h6, if_neg h11]
  rfl

/-- Witness for C4: an empty cache, one already-parsed entry, an inline empty
key, and the unknown tag 10. -/
theorem c4_unknown_tag_returns_partial_witness :
    readMapF 1 [] (JEntries.cons [1] (.vint 7) .nil) [0, 0, 0, 0, 10, 99] =
      .ok (JEntries.cons [1] (.vint 7) .nil, [99]) :=
  c4_unknown_tag_returns_partial 0 [] (JEntries.cons [1] (.vint 7) .nil)
    [0, 0, 0, 0, 10, 99] [10, 99] [99] [] 10 (by decide) (by decide) (by decide)

/-- C6: false of the source — the varint prefix written by
`_writeBinaryString` is `text.length`, the UTF-16 code-unit count (line
271), not the byte length of the UTF-8 data that follows, while
`_readBinaryString` consumes prefix-many bytes.  For the one-character
string "é" (code point `0xE9`, UTF-8 `C3 A9`) the writer emits prefix 1 and
two data bytes, and reading the written bytes back returns the replacement
character U+FFFD with a data byte left over, not "é".  The byte counts
agree only when the string is ASCII (`readBinaryString_writeBinaryString`
proves that special case). -/
theorem c6_binary_string_length_bug :
    writeBinaryString [0xE9] = [1, 0xC3, 0xA9] ∧
      readBinaryString (writeBinaryString [0xE9]) = .ok ([0xFFFD], [0xA9]) ∧
      [0xFFFD] ≠ [0xE9] ∧
      utf16Len [0xE9] = 1 ∧ (utf8 [0xE9]).length = 2 := by
  refine ⟨by decide, by decide, by decide, by decide, by decide⟩


/-- C7: reading the script block — an int32 length and that many raw bytes
— a failing decompression yields the empty script list and decoding
continues right after the block; a successful decompression whose
sub-stream parses yields exactly the parsed scripts, which are
`1 + variantCount` many (the global script plus one per variant counted by
the sub-stream's int32). -/
theorem c7_script_block_leniency (ungzip : List Nat → Option (List Nat)) (n : Int)
    (raw rest : List Nat) (h0 : 0 ≤ n) (h1 : n < 2 ^ 31) (h2 : raw.length = n.toNat)
    (h3 : ∀ b ∈ raw, b < 256) :
    (ungzip raw = none →
      readScripts ungzip (int32Bytes n ++ (raw ++ rest)) = .ok ([], rest)) ∧
    (∀ dec scripts cnt left, ungzip raw = some dec →
      readScriptsInner dec = .ok ((scripts, cnt), left) →
      readScripts ungzip (int32Bytes n ++ (raw ++ rest)) = .ok (scripts, rest) ∧
        scripts.length = 1 + cnt.toNat) := by
  constructor
  · intro hnone
    unfold readScripts
    rw [bind_apply (m := readInt), readInt_int32Bytes n (by omega) h1, ebind_ok]
    simp only []
    rw [bind_apply (m := readBytesJS n), readBytesJS_exact raw rest n h2.symm h3, ebind_ok]
    simp only []
    rw [hnone]
    rfl
  · intro dec scripts cnt left hsome hinner
    refine ⟨?_, readScriptsInner_shape dec scripts cnt left hinner⟩
    unfold readScripts
    rw [bind_apply (m := readInt), readInt_int32Bytes n (by omega) h1, ebind_ok]
    simp only []
    rw [bind_apply (m := readBytesJS n), readBytesJS_exact raw rest n h2.symm h3, ebind_ok]
    simp only []
    rw [hsome]
    simp only []
    rw [hinner]
    rfl

/-- Witness for C7: an always-failing decompressor on a one-byte block, and
a decompressor producing the sub-stream of one empty script and zero
variants. -/
theorem c7_script_block_leniency_witness :
    readScripts (fun _ => none) (int32Bytes 1 ++ ([7] ++ [5, 5])) = .ok ([], [5, 5]) ∧
      (readScripts (fun _ => some [0, 0, 0, 0, 0]) (int32Bytes 1 ++ ([7] ++ [5, 5])) =
          .ok ([[]], [5, 5]) ∧ ([[]] : List (List Nat)).length = 1 + (0 : Int).toNat) :=
  ⟨(c7_script_block_leniency (fun _ => none) 1 [7] [5, 5] (by decide) (by decide)
      (by decide) (by decide)).1 rfl,
    (c7_script_block_leniency (fun _ => some [0, 0, 0, 0, 0]) 1 [7] [5, 5] (by decide)
      (by decide) (by decide) (by decide)).2 [0, 0, 0, 0, 0] [[]] 0 [] rfl (by decide)⟩

/-- C9: an empty map is encoded as one empty-string key write — the int32 0
with no string bytes, `writeString [] = [0,0,0,0]` — followed by the single
EndOfMap byte 4 and nothing else: a nested empty map is `tag 3` then those
five bytes (whatever the cache), and `_writeAllLayout` on an empty root map
emits the empty string table, the variant count and triples, those same
five bytes, and the zero int32 footer, with `_writeMap` itself contributing
no bytes. -/
theorem c9_empty_map_encoding :
    writeString [] = [0, 0, 0, 0] ∧
      (∀ cache : List (List Nat), writeMapEntries cache .nil = .ok []) ∧
      (∀ cache : List (List Nat), writeMapValue cache (.vmap .nil) =
        .ok [3, 0, 0, 0, 0, 4]) ∧
      (∀ variants : List Variant, writeAllLayout variants .nil =
        .ok (int32Bytes 0 ++ int32Bytes ((variants.length : Nat) : Int) ++
          (variants.map writeVariant).flatten ++ (writeString [] ++ [4]) ++
          int32Bytes 0)) := by
  refine ⟨rfl, fun _ => rfl, fun _ => rfl, fun variants => ?_⟩
  have h : writeAllLayout variants .nil = .ok (writeStringsCacheInOrder [] ++
      (int32Bytes ((variants.length : Nat) : Int) ++ (variants.map writeVariant).flatten ++
        [] ++ writeString [] ++ [4]) ++ int32Bytes 0) := rfl
  rw [h]
  simp [writeStringsCacheInOrder, List.append_assoc]

/-- C10: `_writeMap` writes a tag byte and payload only for integers,
strings, booleans, null, nested maps and marker objects; a bare non-integer
number or `undefined` falls through every branch, so the entry's key bytes
are written with no tag and no payload.  On `designNum`
(`{"k": 2.5}`) the map body is just the key's cache index — the tagged-map
grammar is violated, and the full round trip silently loses the entry: the
decoder reads the trailing empty-string-key bytes as the tag, stops on the
unknown tag 0, and returns the empty map. -/
theorem c10_unencodable_values :
    (∀ cache : List (List Nat), writeMapValue cache .vnum = .ok [] ∧
      writeMapValue cache .vundef = .ok []) ∧
      writeMapEntries [[0x6B]] (.cons [0x6B] .vnum .nil) = .ok (int32Bytes 0) ∧
      roundTrip gzipId ungzipId designNum =
        some { designNum with data := .nil } ∧
      designNum.data ≠ JEntries.nil := by
  refine ⟨fun _ => ⟨rfl, rfl⟩, by decide, by decide, by decide⟩

end BJL
